import Mathlib

/-!
Verification of the persishtent core against its Go sources.

Bytes are modelled as natural numbers (payload bytes pass through the code
unchanged, so no `< 256` side condition is needed except where a value is
produced by a byte conversion).  Go byte slices and strings become `List Nat`,
readers become explicit byte lists, and the effects of the daemon and the
attach front-end become explicit action lists.
-/

/-! ## Frame protocol (internal/protocol/protocol.go) -/

/-- Maximum allowed payload size, 64 KiB (`MaxPayloadSize = 64 * 1024`). -/
def maxPayloadSize : Nat := 64 * 1024

/-- Big-endian 4-byte encoding, as produced by `binary.BigEndian.PutUint32`.
The argument is already below `2^32` at every call site (guarded by the
`MaxPayloadSize` check), so the `uint32` conversion is the identity. -/
def be32enc (n : Nat) : List Nat :=
  [n / 16777216 % 256, n / 65536 % 256, n / 256 % 256, n % 256]

/-- Big-endian 4-byte decoding, as computed by `binary.BigEndian.Uint32`. -/
def be32val (b1 b2 b3 b4 : Nat) : Nat :=
  ((b1 * 256 + b2) * 256 + b3) * 256 + b4

/-- `WritePacket`: refuse a payload larger than 64 KiB (`io.ErrShortBuffer`),
otherwise emit the 1-byte type, the big-endian 4-byte length, and the
payload. -/
def writePacket (t : Nat) (payload : List Nat) : Option (List Nat) :=
  if payload.length > maxPayloadSize then none
  else some (t :: be32enc payload.length ++ payload)

/-- The three distinct error return sites of `ReadPacket`: the initial
`io.ReadFull` of the 5-byte header failing, the declared length exceeding
`MaxPayloadSize` (returned before any payload byte is read), and the
`io.ReadFull` of the payload failing. -/
inductive ReadErr where
  | headerShort
  | oversize
  | payloadShort
deriving DecidableEq

/-- `ReadPacket` over an explicit input byte list.  Returns the frame type,
the payload, and the bytes left unread in the stream. -/
def readPacket (input : List Nat) : Except ReadErr (Nat × List Nat × List Nat) :=
  match input with
  | t :: b1 :: b2 :: b3 :: b4 :: rest =>
    let len := be32val b1 b2 b3 b4
    if len > maxPayloadSize then .error .oversize
    else if rest.length < len then .error .payloadShort
    else .ok (t, rest.take len, rest.drop len)
  | _ => .error .headerShort

theorem be32val_be32enc (n : Nat) (h : n < 4294967296) :
    be32val (n / 16777216 % 256) (n / 65536 % 256) (n / 256 % 256) (n % 256) = n := by
  unfold be32val
  omega

/-- Claim C1: for every frame type byte and payload of length at most 64 KiB,
`WritePacket` succeeds and `ReadPacket` applied to the produced bytes returns
the original type and payload (consuming the whole encoding); and for any
input whose 4-byte big-endian declared length exceeds 64 KiB, `ReadPacket`
fails with the oversize protocol error no matter what (and how few) bytes
follow the header, i.e. without attempting to read the payload. -/
theorem c1_packet_roundtrip :
    (∀ t payload, payload.length ≤ maxPayloadSize →
      writePacket t payload = some (t :: be32enc payload.length ++ payload) ∧
      readPacket (t :: be32enc payload.length ++ payload) = .ok (t, payload, [])) ∧
    (∀ t b1 b2 b3 b4 rest, be32val b1 b2 b3 b4 > maxPayloadSize →
      readPacket (t :: b1 :: b2 :: b3 :: b4 :: rest) = .error .oversize) := by
  constructor
  · intro t payload hlen
    constructor
    · unfold writePacket
      rw [if_neg (by omega)]
    · unfold readPacket be32enc
      have hv : be32val (payload.length / 16777216 % 256) (payload.length / 65536 % 256)
          (payload.length / 256 % 256) (payload.length % 256) = payload.length :=
        be32val_be32enc _ (by unfold maxPayloadSize at hlen; omega)
      simp only [List.cons_append, List.nil_append]
      rw [hv, if_neg (by omega), if_neg (by omega)]
      simp
  · intro t b1 b2 b3 b4 rest hlen
    unfold readPacket
    simp [hlen]

/-- Witness for C1 at a concrete frame. -/
theorem c1_packet_roundtrip_witness :
    readPacket (1 :: be32enc 2 ++ [7, 8]) = .ok (1, [7, 8], []) ∧
    readPacket (1 :: 0 :: 255 :: 255 :: 255 :: [9]) = .error .oversize := by
  refine ⟨(c1_packet_roundtrip.1 1 [7, 8] (by decide)).2, ?_⟩
  exact c1_packet_roundtrip.2 1 0 255 255 255 [9] (by decide)

/-! ## Input processor and prefix state machine
(internal/client/client.go, `SessionClient.processInput`) -/

/-- The per-connection state mutated by `processInput`: the one-byte
prefix-pending flag, the atomic detached flag, and whether the connection
has been closed. -/
structure ClientState where
  pendingPfx : Bool
  detached : Bool
  connClosed : Bool
deriving DecidableEq

/-- One byte of `processInput`.  Returns the new state, the payloads of the
`Data` frames written to the connection, and whether the loop returns
`io.EOF` (the stop signal).  Byte 100 is the ASCII letter d. -/
def procByte (dk : Nat) (ro : Bool) (st : ClientState) (b : Nat) :
    ClientState × List (List Nat) × Bool :=
  if st.pendingPfx then
    -- Go clears pendingPrefix before the switch; the d case is listed first,
    -- so it wins even when the detach key itself is d.
    let st1 : ClientState := { st with pendingPfx := false }
    if b = 100 then
      ({ st1 with detached := true, connClosed := true }, [], true)
    else if b = dk then
      (st1, if ro then [] else [[dk]], false)
    else
      (st1, if ro then [] else [[dk, b]], false)
  else
    if b = dk then
      ({ st with pendingPfx := true }, [], false)
    else
      (st, if ro then [] else [[b]], false)

/-- `processInput` over a chunk: fold `procByte` over the bytes, stopping
early (and dropping the rest of the chunk) when the detach sequence fires. -/
def processInput (dk : Nat) (ro : Bool) :
    ClientState → List Nat → ClientState × List (List Nat) × Bool
  | st, [] => (st, [], false)
  | st, b :: rest =>
    let r1 := procByte dk ro st b
    if r1.2.2 then (r1.1, r1.2.1, true)
    else
      let r2 := processInput dk ro r1.1 rest
      (r2.1, r1.2.1 ++ r2.2.1, r2.2.2)

/-- The stdin pump of `Stream`: chunks are fed to `processInput` one after the
other, and the pump stops at the first chunk that returns the stop signal
(later chunks are never processed). -/
def runChunks (dk : Nat) (ro : Bool) :
    ClientState → List (List Nat) → ClientState × List (List Nat) × Bool
  | st, [] => (st, [], false)
  | st, c :: cs =>
    let r1 := processInput dk ro st c
    if r1.2.2 then (r1.1, r1.2.1, true)
    else
      let r2 := runChunks dk ro r1.1 cs
      (r2.1, r1.2.1 ++ r2.2.1, r2.2.2)

theorem procByte_ro_no_emit (dk : Nat) (st : ClientState) (b : Nat) :
    (procByte dk true st b).2.1 = [] := by
  unfold procByte
  split_ifs <;> simp_all

/-- Claim C4: in read-only (observer) mode `processInput` never emits a
`Data` frame, for any detach key, state and input; and the detach sequence
(detach key then d) from a clean state still sets the detached flag, closes
the connection, emits nothing, and returns the stop signal. -/
theorem c4_readonly_no_data (dk : Nat) (st : ClientState) (data : List Nat) :
    (processInput dk true st data).2.1 = [] ∧
    processInput dk true ⟨false, false, false⟩ [dk, 100] =
      (⟨false, true, true⟩, [], true) := by
  constructor
  · induction data generalizing st with
    | nil => rfl
    | cons b rest ih =>
      rw [processInput]
      by_cases hstop : (procByte dk true st b).2.2 <;>
        simp [hstop, procByte_ro_no_emit, ih]
  · by_cases hk : (100 : Nat) = dk <;> simp [processInput, procByte, hk]

/-- Claim C10: the input processor is insensitive to chunk boundaries.
Feeding any chunk decomposition through the pump produces exactly the same
final state, the same sequence of `Data` frames, and the same stop outcome
as one `processInput` call on the concatenation. -/
theorem c10_chunk_insensitive (dk : Nat) (ro : Bool) (st : ClientState)
    (chunks : List (List Nat)) :
    runChunks dk ro st chunks = processInput dk ro st chunks.flatten := by
  induction chunks generalizing st with
  | nil => rfl
  | cons c cs ih =>
    have happ : ∀ a b st1, processInput dk ro st1 (a ++ b) =
        (let r1 := processInput dk ro st1 a
         if r1.2.2 then (r1.1, r1.2.1, true)
         else
           let r2 := processInput dk ro r1.1 b
           (r2.1, r1.2.1 ++ r2.2.1, r2.2.2)) := by
      intro a
      induction a with
      | nil => intro b st1; simp [processInput]
      | cons x xs ihx =>
        intro b st1
        simp only [List.cons_append, processInput]
        by_cases hstop : (procByte dk ro st1 x).2.2
        · simp [hstop]
        · by_cases hs2 : (processInput dk ro (procByte dk ro st1 x).1 xs).2.2 <;>
            simp [hstop, ihx, hs2, List.append_assoc]
    rw [runChunks, List.flatten, happ, ih]

/-! ## Daemon peer handler (unnamed server revision, `Server.handleClient`)

Connections are identified by numeric ids.  The broadcaster state is the
mutex-guarded `Clients` set together with the distinguished `Master` slot;
the side effects of a handler run are collected as an action list. -/

/-- The shared server state guarded by `Server.Lock`. -/
structure SrvState where
  clients : Finset Nat
  master : Option Nat
deriving DecidableEq

/-- Observable side effects of a peer handler. -/
inductive SrvAction where
  | kick (conn : Nat)
  | closeConn (conn : Nat)
  | ptyWrite (payload : List Nat)
  | setSize (rows cols : Nat)
  | sigChild (signum : Nat)
  | relink (target : List Nat)
deriving DecidableEq

/-- A decoded frame: type byte and payload. -/
def Frame := Nat × List Nat

/-- The locked installation section of `handleClient`: a master kicks and
closes the previous occupant of the `Master` slot and takes it over; an
observer leaves the slot alone; either way the connection joins `Clients`. -/
def installPeer (st : SrvState) (conn : Nat) (isReadOnly : Bool) :
    SrvState × List SrvAction :=
  if isReadOnly then
    ({ st with clients := insert conn st.clients }, [])
  else
    match st.master with
    | some m =>
      (⟨insert conn st.clients, some conn⟩, [.kick m, .closeConn m])
    | none => (⟨insert conn st.clients, some conn⟩, [])

/-- `DecodeResizePayload`: two big-endian `u16`, or `(0, 0)` when the payload
is shorter than 4 bytes. -/
def decodeResize (p : List Nat) : Nat × Nat :=
  match p with
  | r1 :: r2 :: c1 :: c2 :: _ => (r1 * 256 + r2, c1 * 256 + c2)
  | _ => (0, 0)

/-- The bytes of the string SSH_AUTH_SOCK= recognized by the `Env` case. -/
def sshEnvKey : List Nat := [83, 83, 72, 95, 65, 85, 84, 72, 95, 83, 79, 67, 75, 61]

/-- The effects of one frame handled inside the read loop for a master peer
(`Data` 0x01, `Resize` 0x02, `Signal` 0x03, `Env` 0x06; every other type is
ignored by the switch). -/
def frameEffects (t : Nat) (p : List Nat) : List SrvAction :=
  if t = 1 then [.ptyWrite p]
  else if t = 2 then [.setSize (decodeResize p).1 (decodeResize p).2]
  else if t = 3 then
    match p with
    | [] => []
    | s :: _ => [.sigChild s]
  else if t = 6 then
    if p.take 14 = sshEnvKey then [.relink (p.drop 14)] else []
  else []

/-- The frame read loop: an observer silently drains every frame, a master
applies `frameEffects` to each. -/
def peerLoop (isReadOnly : Bool) : List Frame → List SrvAction
  | [] => []
  | (t, p) :: rest =>
    if isReadOnly then peerLoop isReadOnly rest
    else frameEffects t p ++ peerLoop isReadOnly rest

/-- `Server.handleClient` on a fresh connection `conn` whose stream decodes
to `frames` (the end of the list is the read error that ends the loop): the
first frame must be `Mode` (type 0x05) with a non-empty payload, otherwise
the connection is closed untouched; after installation the remaining frames
are processed and the deferred cleanup removes the connection, clears the
master slot if it held this connection, and closes the stream. -/
def handleClient (st : SrvState) (conn : Nat) (frames : List Frame) :
    SrvState × List SrvAction :=
  match frames with
  | [] => (st, [.closeConn conn])
  | (t, p) :: rest =>
    if t = 5 ∧ p ≠ [] then
      let isReadOnly := p.headD 0 = 1
      let ins := installPeer st conn isReadOnly
      let acts := peerLoop isReadOnly rest
      (⟨ins.1.clients.erase conn,
        if ins.1.master = some conn then none else ins.1.master⟩,
       ins.2 ++ acts ++ [.closeConn conn])
    else (st, [.closeConn conn])

/-- The first frame is a well-formed `Mode` declaration. -/
def firstFrameIsMode (frames : List Frame) : Prop :=
  match frames with
  | [] => False
  | (t, p) :: _ => t = 5 ∧ p ≠ []

instance (frames : List Frame) : Decidable (firstFrameIsMode frames) := by
  unfold firstFrameIsMode
  match frames with
  | [] => exact inferInstanceAs (Decidable False)
  | (t, p) :: _ => exact inferInstanceAs (Decidable (t = 5 ∧ p ≠ []))

/-- Claim C2: a fresh connection whose first frame is not a `Mode` frame
(type 0x05 with non-empty payload) is closed without being installed as a
peer and without any other effect — the broadcaster state is unchanged and
the only action is the close; and a connection whose first frame is `Mode`
is added to the peer set by the installation section. -/
theorem c2_mode_first (st : SrvState) (conn : Nat) (frames : List Frame) :
    (¬ firstFrameIsMode frames →
      handleClient st conn frames = (st, [.closeConn conn])) ∧
    (∀ isReadOnly, conn ∈ (installPeer st conn isReadOnly).1.clients) := by
  constructor
  · intro hbad
    match frames with
    | [] => rfl
    | (t, p) :: rest =>
      rw [handleClient, if_neg]
      intro h
      exact hbad h
  · intro isReadOnly
    unfold installPeer
    split_ifs
    · exact Finset.mem_insert_self conn st.clients
    · match st.master with
      | some m => exact Finset.mem_insert_self conn st.clients
      | none => exact Finset.mem_insert_self conn st.clients

/-- Witness for C2: a first frame of type `Data` is refused, and a `Mode`
connection lands in the peer set. -/
theorem c2_mode_first_witness :
    handleClient ⟨{7}, some 7⟩ 3 [(1, [104])] = (⟨{7}, some 7⟩, [.closeConn 3]) ∧
    3 ∈ (installPeer ⟨{7}, some 7⟩ 3 false).1.clients := by
  exact ⟨(c2_mode_first ⟨{7}, some 7⟩ 3 [(1, [104])]).1 (by decide),
    (c2_mode_first ⟨{7}, some 7⟩ 3 [(1, [104])]).2 false⟩

/-- Claim C3: installing a second master `b` while `m` occupies the master
slot emits exactly one `Kick` (addressed to `m`), closes the stream of `m`,
and leaves `b` as the sole occupant of the master slot; installing an
observer never changes the master slot.  The slot holds at most one
connection by construction, so at most one master peer exists at any time. -/
theorem c3_kick_semantics (st : SrvState) (m b o : Nat) (hm : st.master = some m) :
    installPeer st b false = (⟨insert b st.clients, some b⟩, [.kick m, .closeConn m]) ∧
    ((installPeer st b false).2.count (.kick m) = 1) ∧
    (installPeer st o true).1.master = st.master := by
  refine ⟨?_, ?_, ?_⟩
  · unfold installPeer
    rw [hm]
    rfl
  · unfold installPeer
    rw [hm]
    simp [List.count_cons]
  · unfold installPeer
    rfl

/-- Witness for C3 on a concrete broadcaster holding master 7. -/
theorem c3_kick_semantics_witness :
    installPeer ⟨{7}, some 7⟩ 3 false = (⟨{3, 7}, some 3⟩, [.kick 7, .closeConn 7]) ∧
    ((installPeer ⟨{7}, some 7⟩ 3 false).2.count (.kick 7) = 1) ∧
    (installPeer ⟨{7}, some 7⟩ 9 true).1.master = some 7 := by
  exact c3_kick_semantics ⟨{7}, some 7⟩ 7 3 9 rfl

/-! ## Attach front-end termination and restoration
(internal/client/client.go, `SessionClient.Stream` and `Attach`) -/

/-- A frame arriving from the daemon inside `Stream`; the end of the event
list is the read error (daemon closed the stream, or the connection was
closed locally by the detach sequence). -/
inductive FeEvent where
  | frame (t : Nat) (payload : List Nat)

/-- Observable actions of the front-end around termination. -/
inductive FeAction where
  | writeStdout (payload : List Nat)
  | restoreEscapes
  | restoreTermios
deriving DecidableEq

/-- The three ways `Stream` returns. -/
inductive FeOutcome where
  | detached
  | kicked
  | terminated
deriving DecidableEq

/-- `Stream` steady state: `Data` frames go to stdout; a `Kick` frame emits
the restoration escape string (`restoreTerminal`) and returns the kicked
error; a read error returns the detached error with the escape string when
the detached flag was set by the input processor, and returns nil (shell
terminated or connection lost) with no escape output otherwise.  `det` is
the value of the atomic detached flag when the read error surfaces. -/
def streamRun : List FeEvent → Bool → List FeAction × FeOutcome
  | [], det => if det then ([.restoreEscapes], .detached) else ([], .terminated)
  | .frame t p :: rest, det =>
    if t = 1 then
      let r := streamRun rest det
      (.writeStdout p :: r.1, r.2)
    else if t = 4 then ([.restoreEscapes], .kicked)
    else streamRun rest det

/-- `Attach` wraps `Stream`: its deferred `term.Restore` puts the saved
termios back on every return path. -/
def attachRun (events : List FeEvent) (det : Bool) : List FeAction × FeOutcome :=
  let r := streamRun events det
  (r.1 ++ [.restoreTermios], r.2)

/-- Counterexample to claim C7: when the daemon closes the stream without a
`Kick` and without a local detach (the shell terminated), the front-end
restores the termios through the deferred `term.Restore` but never emits the
restoration escape-sequence string, so the full Restore procedure does not
run on that termination cause. -/
theorem c7_counterexample :
    attachRun [] false = ([.restoreTermios], .terminated) ∧
    FeAction.restoreEscapes ∉ (attachRun [] false).1 := by
  constructor
  · rfl
  · decide

theorem streamRun_escapes_iff (events : List FeEvent) (det : Bool) :
    FeAction.restoreEscapes ∈ (streamRun events det).1 ↔
      (streamRun events det).2 ≠ .terminated := by
  induction events with
  | nil => cases det <;> simp [streamRun]
  | cons e rest ih =>
    match e with
    | .frame t p =>
      by_cases h1 : t = 1
      · simpa [streamRun, h1] using ih
      · by_cases h4 : t = 4 <;> simp [streamRun, h1, h4, ih]

/-- Claim C7 as amended: the saved termios is restored on every termination
cause, and the restoration escape-sequence string is emitted exactly on the
detach and kick outcomes — a plain daemon close (shell terminated) restores
only the termios. -/
theorem c7_restore_on_exit (events : List FeEvent) (det : Bool) :
    FeAction.restoreTermios ∈ (attachRun events det).1 ∧
    (((attachRun events det).2 = .detached ∨ (attachRun events det).2 = .kicked) →
      FeAction.restoreEscapes ∈ (attachRun events det).1) ∧
    ((attachRun events det).2 = .terminated →
      FeAction.restoreEscapes ∉ (attachRun events det).1) := by
  refine ⟨by simp [attachRun], ?_, ?_⟩
  · intro hout
    have hne : (streamRun events det).2 ≠ .terminated := by
      unfold attachRun at hout
      rcases hout with h | h <;> rw [h] <;> intro hc <;> cases hc
    have := (streamRun_escapes_iff events det).mpr hne
    unfold attachRun
    simp [this]
  · intro hout hmem
    unfold attachRun at hout hmem
    have hesc : FeAction.restoreEscapes ∈ (streamRun events det).1 := by
      rcases List.mem_append.mp hmem with h | h
      · exact h
      · simp at h
    exact (streamRun_escapes_iff events det).mp hesc hout

/-- Witness for C7 (amended): a kick event yields the escape string plus the
termios restore; a plain close yields the termios restore only. -/
theorem c7_restore_on_exit_witness :
    FeAction.restoreEscapes ∈ (attachRun [.frame 4 []] false).1 ∧
    FeAction.restoreEscapes ∉ (attachRun [] false).1 := by
  exact ⟨(c7_restore_on_exit [.frame 4 []] false).2.1 (Or.inr rfl),
    (c7_restore_on_exit [] false).2.2 rfl⟩

/-! ## Rotating output sink (internal/server logger, `LogRotator`)

The on-disk segment set is modelled by the rotated files as `(index, size)`
pairs kept in ascending index order — which `session.GetLogFiles` guarantees
(rotated segments sorted by numeric index ascending, active log last) — plus
the size of the active segment.  Only the happy path is modelled: no
filesystem errors occur, so `rotate` always reopens an empty active file. -/

/-- The rotator state: rotated segments as (index, size) pairs in ascending
index order, and the size of the active segment. -/
structure RotState where
  rotated : List (Nat × Nat)
  size : Nat
deriving DecidableEq

/-- `LogRotator.rotate` (happy path).  `session.GetLogFiles` lists the
rotated segments (ascending index) followed by the active log; `maxIdx` is
the highest rotated index; the active file is renamed to `maxIdx + 1`; if
the pre-rename file count reaches `maxFiles`, the oldest entry of that list
is removed — the head rotated segment, or skipped entirely when the head is
the active path itself; finally an empty active file is reopened. -/
def rotRotate (maxFiles : Nat) (st : RotState) : RotState :=
  let filesLen := st.rotated.length + 1
  let maxIdx := (st.rotated.map Prod.fst).foldr max 0
  let rotated1 := st.rotated ++ [(maxIdx + 1, st.size)]
  let rotated2 :=
    if maxFiles ≤ filesLen then
      match st.rotated with
      | [] => rotated1
      | _ :: tl => tl ++ [(maxIdx + 1, st.size)]
    else rotated1
  ⟨rotated2, 0⟩

/-- `LogRotator.Write`: rotate first when the write would push the active
segment past `maxSize`, then append the chunk to the active segment. -/
def rotWrite (maxSize maxFiles : Nat) (st : RotState) (p : Nat) : RotState :=
  let st1 := if maxSize < st.size + p then rotRotate maxFiles st else st
  { st1 with size := st1.size + p }

/-- A whole run of the sink from a fresh (truncated) log over a sequence of
write lengths. -/
def rotRun (maxSize maxFiles : Nat) (ws : List Nat) : RotState :=
  ws.foldl (rotWrite maxSize maxFiles) ⟨[], 0⟩

/-- Number of on-disk segment files: rotated segments plus the active log. -/
def rotCount (st : RotState) : Nat := st.rotated.length + 1

/-- Total bytes preserved across all on-disk segments. -/
def rotPreserved (st : RotState) : Nat :=
  (st.rotated.map Prod.snd).sum + st.size

/-- Counterexample to claim C6.  With `segment_size_bytes = 10` and
`max_segments = 3`, the write sequence 1, 10, 1, 10, 1 (M = 23 bytes) leaves
only 12 bytes on disk, below the claimed bound min(M, (R-1)·B) = 20: a large
write closes the active segment while it is still small, so kept segments
need not hold B bytes each.  And with `max_segments = 1` two writes of 2
bytes against `segment_size_bytes = 1` leave two on-disk segments, violating
the claimed count bound for R = 1. -/
theorem c6_counterexample :
    rotPreserved (rotRun 10 3 [1, 10, 1, 10, 1]) = 12 ∧
    min (List.sum [1, 10, 1, 10, 1]) ((3 - 1) * 10) = 20 ∧
    rotCount (rotRun 1 1 [2, 2]) = 2 := by
  decide

theorem rotWrite_count (maxSize maxFiles : Nat) (hR : 2 ≤ maxFiles)
    (st : RotState) (p : Nat) (h : rotCount st ≤ maxFiles) :
    rotCount (rotWrite maxSize maxFiles st p) ≤ maxFiles := by
  unfold rotWrite
  split_ifs with hrot
  · unfold rotCount at h ⊢
    unfold rotRotate
    dsimp only
    split_ifs with hfull
    · match hst : st.rotated with
      | [] =>
        simp
        omega
      | x :: tl =>
        rw [hst] at h
        simp at h ⊢
        omega
    · simp at hfull ⊢
      omega
  · exact h

theorem rotWrite_preserved (maxSize maxFiles : Nat) (st : RotState) (p acc : Nat)
    (h : min acc maxSize ≤ rotPreserved st) :
    min (acc + p) maxSize ≤ rotPreserved (rotWrite maxSize maxFiles st p) := by
  unfold rotWrite
  split_ifs with hrot
  · -- rotation: the just-renamed segment (holding st.size bytes) is never
    -- the removal victim, so at least st.size + p > maxSize bytes survive.
    have hkeep : st.size ≤ (((rotRotate maxFiles st).rotated).map Prod.snd).sum := by
      unfold rotRotate
      dsimp only
      split_ifs with hfull
      · match st.rotated with
        | [] => simp
        | x :: tl => simp
      · simp
    unfold rotPreserved at h ⊢
    unfold rotRotate at hkeep ⊢
    dsimp only at hkeep ⊢
    omega
  · unfold rotPreserved at h ⊢
    dsimp only
    omega

/-- Claim C6 as amended: after any sequence of writes totalling `M` bytes,
with `max_segments = R ≥ 2` the number of on-disk segment files is at most
`R` (for `R = 1` it can reach 2); the total bytes preserved is at least
`min(M, B)` — the originally claimed bound `min(M, (R-1)·B)` does not hold,
because a segment is closed as soon as a write would overflow it, however
small it still is. -/
theorem c6_rotator_bounds (maxSize maxFiles : Nat) (ws : List Nat) :
    (2 ≤ maxFiles → rotCount (rotRun maxSize maxFiles ws) ≤ maxFiles) ∧
    min (List.sum ws) maxSize ≤ rotPreserved (rotRun maxSize maxFiles ws) := by
  constructor
  · intro hR
    have : ∀ st, rotCount st ≤ maxFiles →
        rotCount (ws.foldl (rotWrite maxSize maxFiles) st) ≤ maxFiles := by
      induction ws with
      | nil => intro st h; exact h
      | cons w rest ih =>
        intro st h
        exact ih _ (rotWrite_count maxSize maxFiles hR st w h)
    exact this ⟨[], 0⟩ (by simp [rotCount]; omega)
  · have : ∀ st acc, min acc maxSize ≤ rotPreserved st →
        min (acc + List.sum ws) maxSize ≤
          rotPreserved (ws.foldl (rotWrite maxSize maxFiles) st) := by
      induction ws with
      | nil => intro st acc h; simpa using h
      | cons w rest ih =>
        intro st acc h
        have h1 := rotWrite_preserved maxSize maxFiles st w acc h
        have h2 := ih _ (acc + w) h1
        simpa [List.sum_cons, Nat.add_assoc] using h2
    simpa using this ⟨[], 0⟩ 0 (by simp [rotPreserved])

/-- Witness for C6 (amended) on the rotation scenario of the test suite:
1 MiB segments, 3 total segments, 3.5 MiB written in 512 KiB chunks. -/
theorem c6_rotator_bounds_witness :
    rotCount (rotRun 1048576 3 (List.replicate 7 524288)) ≤ 3 ∧
    min (List.sum (List.replicate 7 524288)) 1048576 ≤
      rotPreserved (rotRun 1048576 3 (List.replicate 7 524288)) := by
  exact ⟨(c6_rotator_bounds 1048576 3 (List.replicate 7 524288)).1 (by decide),
    (c6_rotator_bounds 1048576 3 (List.replicate 7 524288)).2⟩

/-! ## Session registry rename (internal/session/session.go `Rename`,
cmd/persishtent/main.go rename case)

The per-user state directory is modelled by the sets of session names that
own each artifact kind, plus the info files as an association list from the
file name (the part before `.info`) to the `name` field stored inside. -/

/-- The artifacts of the state directory relevant to `Rename`. -/
structure RegFS where
  socks : List String
  logs : List String
  rotated : List (String × Nat)
  sshLinks : List String
  infos : List (String × String)
deriving DecidableEq

/-- One step of the `Rename` extension loop: if `old.ext` exists, move it to
`new.ext` (an `os.Rename` silently replaces an existing target). -/
def moveName (l : List String) (old new : String) : List String :=
  if old ∈ l then new :: (l.erase old).erase new else l

/-- Moving the info file: the stored content (its `name` field) travels
unchanged with the file. -/
def moveInfo (infos : List (String × String)) (old new : String) :
    List (String × String) :=
  match infos.lookup old with
  | some v => (new, v) :: (infos.filter (fun kv => kv.1 ≠ old ∧ kv.1 ≠ new))
  | none => infos

/-- `session.Rename`: move `.sock`, `.info` and `.log` from the old to the
new name (and nothing else — rotated `.log.K` segments and the
`.ssh_auth_sock` symlink are not touched), then read the info file under the
new name, overwrite its `name` field with the new name, and write it back. -/
def renameFS (old new : String) (fs : RegFS) : RegFS :=
  let s1 := { fs with socks := moveName fs.socks old new }
  let s2 := { s1 with infos := moveInfo s1.infos old new }
  let s3 := { s2 with logs := moveName s2.logs old new }
  match s3.infos.lookup new with
  | some _ =>
    { s3 with infos := (new, new) :: (s3.infos.filter (fun kv => kv.1 ≠ new)) }
  | none => s3

/-- `session.ValidateName`: non-empty and only ASCII alphanumerics,
underscore and hyphen (the regular expression `[a-zA-Z0-9_-]+`). -/
def validName (s : String) : Bool :=
  s ≠ "" && s.data.all (fun c =>
    ('a' ≤ c && c ≤ 'z') || ('A' ≤ c && c ≤ 'Z') ||
    ('0' ≤ c && c ≤ '9') || c = '_' || c = '-')

/-- The rename command of `main`: validate the new name only, then call
`session.Rename`; there is no check that the new name is not already in
use. -/
def mainRename (old new : String) (fs : RegFS) : Option RegFS :=
  if validName new then some (renameFS old new fs) else none

/-- Counterexample to claim C8.  Renaming session a to b moves the socket,
the info file and the active log, but the rotated segment `a.log.1` and the
symlink `a.ssh_auth_sock` keep the old prefix; and a rename onto a name
whose artifacts already exist succeeds instead of being refused. -/
theorem c8_counterexample :
    (renameFS "a" "b" ⟨["a"], ["a"], [("a", 1)], ["a"], [("a", "a")]⟩).rotated
        = [("a", 1)] ∧
    (renameFS "a" "b" ⟨["a"], ["a"], [("a", 1)], ["a"], [("a", "a")]⟩).sshLinks
        = ["a"] ∧
    (mainRename "a" "b" ⟨["a", "b"], ["a", "b"], [], [], [("a", "a"), ("b", "b")]⟩).isSome
        = true := by
  refine ⟨rfl, rfl, ?_⟩
  decide

/-- Claim C8 as amended: `rename(old, new)` requires the new name to
validate (but not that it is unused); it moves only the socket, the info
file and the active log to the new prefix, leaving every rotated log
segment and the ssh_auth_sock symlink under the old prefix; and it rewrites
the `name` field inside the info file to the new name. -/
theorem c8_rename (old new : String) (fs : RegFS) (v : String)
    (hv : validName new = true) :
    mainRename old new fs = some (renameFS old new fs) ∧
    (renameFS old new fs).rotated = fs.rotated ∧
    (renameFS old new fs).sshLinks = fs.sshLinks ∧
    (old ∈ fs.socks → new ∈ (renameFS old new fs).socks) ∧
    (old ∈ fs.logs → new ∈ (renameFS old new fs).logs) ∧
    (fs.infos.lookup old = some v →
      (renameFS old new fs).infos.lookup new = some new) := by
  have hrot : (renameFS old new fs).rotated = fs.rotated ∧
      (renameFS old new fs).sshLinks = fs.sshLinks ∧
      (renameFS old new fs).socks = moveName fs.socks old new ∧
      (renameFS old new fs).logs = moveName fs.logs old new := by
    unfold renameFS
    dsimp only
    split <;> simp
  refine ⟨by simp [mainRename, hv], hrot.1, hrot.2.1, ?_, ?_, ?_⟩
  · intro hmem
    rw [hrot.2.2.1]
    unfold moveName
    simp [hmem]
  · intro hmem
    rw [hrot.2.2.2]
    unfold moveName
    simp [hmem]
  · intro hlk
    have hmv : (moveInfo fs.infos old new).lookup new = some v := by
      unfold moveInfo
      rw [hlk]
      simp [List.lookup]
    unfold renameFS
    dsimp only
    rw [hmv]
    simp [List.lookup]

/-- Witness for C8 (amended) on a concrete directory. -/
theorem c8_rename_witness :
    validName "b" = true ∧
    (renameFS "a" "b" ⟨["a"], ["a"], [("a", 3)], ["a"], [("a", "a")]⟩).rotated
        = [("a", 3)] ∧
    (renameFS "a" "b" ⟨["a"], ["a"], [("a", 3)], ["a"], [("a", "a")]⟩).infos.lookup "b"
        = some "b" := by
  have h := c8_rename "a" "b" ⟨["a"], ["a"], [("a", 3)], ["a"], [("a", "a")]⟩ "a"
    (by decide)
  exact ⟨by decide, h.2.1, h.2.2.2.2.2 (by decide)⟩

/-! ## Auto-name generation (internal/cli/commands.go `FindNextAutoName`,
cmd/persishtent/main.go `generateAutoName`)

Session names are byte strings (`List Nat`).  `fmt.Sprintf` with the `%d`
verb prints the plain decimal digits of a natural number. -/

/-- The bytes produced by the `%d` verb: the decimal digits of `n`,
most-significant first, as ASCII codes (48 is the digit 0). -/
def decStr (n : Nat) : List Nat :=
  if n = 0 then [48] else ((Nat.digits 10 n).map (fun d => d + 48)).reverse

/-- The name format of `generateAutoName` in cmd/persishtent/main.go:
`fmt.Sprintf("s%d", i)` — the letter s (byte 115) followed by the decimal
digits. -/
def sessionAutoName (i : Nat) : List Nat := 115 :: decStr i

/-- The unbounded `for` loop shared by both generators: try `f i`, `f (i+1)`,
… until a name outside `used` is found.  The loop of the Go source has no
syntactic bound; the fuel argument is the termination measure, and
`searchFrom_spec` shows that `used.length + 1` steps always suffice, so the
embedding computes exactly what the loop returns. -/
def searchFrom (used : List (List Nat)) (f : Nat → List Nat) :
    Nat → Nat → Option Nat
  | _, 0 => none
  | i, fuel + 1 => if f i ∈ used then searchFrom used f (i + 1) fuel else some i

/-- `cli.FindNextAutoName`: first `i` from 0 whose plain decimal form is not
a used name. -/
def findNextAutoName (used : List (List Nat)) : List Nat :=
  match searchFrom used decStr 0 (used.length + 1) with
  | some i => decStr i
  | none => []

/-- `generateAutoName` of cmd/persishtent/main.go: first `i` from 0 such
that `"s" + decimal(i)` is not a used name. -/
def generateAutoName (used : List (List Nat)) : List Nat :=
  match searchFrom used sessionAutoName 0 (used.length + 1) with
  | some i => sessionAutoName i
  | none => []

theorem decStr_injective : Function.Injective decStr := by
  have hmap : Function.Injective (fun d : Nat => d + 48) := by
    intro x y h
    simpa using h
  intro a b h
  unfold decStr at h
  by_cases ha : a = 0 <;> by_cases hb : b = 0
  · omega
  · rw [if_pos ha, if_neg hb] at h
    exfalso
    have h2 : (Nat.digits 10 b).map (fun d => d + 48) = [48] := by
      rw [← List.reverse_reverse ((Nat.digits 10 b).map (fun d => d + 48)), ← h]
      rfl
    match hd : Nat.digits 10 b with
    | [] => rw [hd] at h2; cases h2
    | d :: tl =>
      rw [hd] at h2
      simp at h2
      have hb0 : Nat.ofDigits 10 (Nat.digits 10 b) = b := Nat.ofDigits_digits 10 b
      rw [hd, h2.1, h2.2] at hb0
      simp [Nat.ofDigits] at hb0
      omega
  · rw [if_neg ha, if_pos hb] at h
    exfalso
    have h2 : (Nat.digits 10 a).map (fun d => d + 48) = [48] := by
      rw [← List.reverse_reverse ((Nat.digits 10 a).map (fun d => d + 48)), h]
      rfl
    match hd : Nat.digits 10 a with
    | [] => rw [hd] at h2; cases h2
    | d :: tl =>
      rw [hd] at h2
      simp at h2
      have ha0 : Nat.ofDigits 10 (Nat.digits 10 a) = a := Nat.ofDigits_digits 10 a
      rw [hd, h2.1, h2.2] at ha0
      simp [Nat.ofDigits] at ha0
      omega
  · rw [if_neg ha, if_neg hb] at h
    have h2 := List.reverse_injective h
    have h3 := List.map_injective_iff.mpr hmap h2
    exact Nat.digits_inj_iff.mp h3

theorem sessionAutoName_injective : Function.Injective sessionAutoName := by
  intro a b h
  unfold sessionAutoName at h
  exact decStr_injective (List.tail_eq_of_cons_eq h)

/-- Pigeonhole: among the first `used.length + 1` candidate names of an
injective name format, at least one is unused. -/
theorem exists_unused (f : Nat → List Nat) (hf : Function.Injective f)
    (used : List (List Nat)) : ∃ i, i ≤ used.length ∧ f i ∉ used := by
  by_contra hcon
  push_neg at hcon
  have hsub : (Finset.range (used.length + 1)).image f ⊆ used.toFinset := by
    intro x hx
    rcases Finset.mem_image.mp hx with ⟨i, hi, rfl⟩
    exact List.mem_toFinset.mpr (hcon i (Nat.lt_succ_iff.mp (Finset.mem_range.mp hi)))
  have hcard := Finset.card_le_card hsub
  rw [Finset.card_image_of_injective _ hf, Finset.card_range] at hcard
  have hle := List.toFinset_card_le (l := used)
  omega

theorem searchFrom_spec (used : List (List Nat)) (f : Nat → List Nat) :
    ∀ fuel i j, i ≤ j → j < i + fuel → f j ∉ used →
      ∃ k, searchFrom used f i fuel = some k ∧ f k ∉ used ∧ i ≤ k ∧
        ∀ l, i ≤ l → l < k → f l ∈ used := by
  intro fuel
  induction fuel with
  | zero => intro i j hij hlt _; omega
  | succ fuel ih =>
    intro i j hij hlt hj
    by_cases hm : f i ∈ used
    · have hij2 : i + 1 ≤ j := by
        rcases Nat.lt_or_ge i j with h | h
        · omega
        · have : i = j := by omega
          rw [this] at hm
          exact absurd hm hj
      rcases ih (i + 1) j hij2 (by omega) hj with ⟨k, hk1, hk2, hk3, hk4⟩
      refine ⟨k, ?_, hk2, by omega, ?_⟩
      · rw [searchFrom, if_pos hm]
        exact hk1
      · intro l hl1 hl2
        rcases Nat.lt_or_ge l (i + 1) with h | h
        · have : l = i := by omega
          rwa [this]
        · exact hk4 l h hl2
    · exact ⟨i, by rw [searchFrom, if_neg hm], hm, Nat.le_refl i,
        fun l h1 h2 => by omega⟩

/-- Counterexample to claim C9: with no session in use, the auto-name
generator of cmd/persishtent/main.go returns the bytes of the string s0
(115, 48), not the plain decimal representation (48) of the smallest unused
non-negative integer. -/
theorem c9_counterexample :
    generateAutoName [] = [115, 48] ∧ decStr 0 = [48] ∧
    ([115, 48] : List Nat) ≠ [48] := by
  refine ⟨?_, rfl, by decide⟩
  rfl

/-- Claim C9 as amended: `cli.FindNextAutoName` returns the plain decimal
representation of the smallest non-negative integer whose decimal form is
not a used session name, exactly as claimed; but `generateAutoName` in
cmd/persishtent/main.go instead returns the letter s followed by the
decimal digits of the smallest `i` such that `"s" + decimal(i)` is unused. -/
theorem c9_autoname (used : List (List Nat)) :
    (∃ k, findNextAutoName used = decStr k ∧ decStr k ∉ used ∧
      ∀ j, j < k → decStr j ∈ used) ∧
    (∃ k, generateAutoName used = sessionAutoName k ∧ sessionAutoName k ∉ used ∧
      ∀ j, j < k → sessionAutoName j ∈ used) := by
  constructor
  · rcases exists_unused decStr decStr_injective used with ⟨j, hj1, hj2⟩
    rcases searchFrom_spec used decStr (used.length + 1) 0 j (Nat.zero_le j)
      (by omega) hj2 with ⟨k, hk1, hk2, _, hk4⟩
    exact ⟨k, by rw [findNextAutoName, hk1], hk2,
      fun l hl => hk4 l (Nat.zero_le l) hl⟩
  · rcases exists_unused sessionAutoName sessionAutoName_injective used with
      ⟨j, hj1, hj2⟩
    rcases searchFrom_spec used sessionAutoName (used.length + 1) 0 j
      (Nat.zero_le j) (by omega) hj2 with ⟨k, hk1, hk2, _, hk4⟩
    exact ⟨k, by rw [generateAutoName, hk1], hk2,
      fun l hl => hk4 l (Nat.zero_le l) hl⟩

/-! ## Tail replay (internal/client/client.go `replayTail`)

`replayTail` reads the file backwards in windows through a reusable buffer
`buf` of `bufSize = min 4096 size` bytes.  Two details of the Go code are
modelled exactly because they are observable:

* the final partial window shrinks the `bufSize` variable but not the
  buffer itself, so `ReadFull(f, buf)` at the clamped offset 0 re-reads
  `min 4096 size` bytes and overlaps the previous window;
* `finalData = append(buf, finalData...)` with an empty `finalData` returns
  `buf` itself, so `finalData` aliases the read buffer until the next
  append copies; the next `ReadFull` then overwrites the aliased contents.
  The `aliased` flag tracks this: while it is set, the accumulated content
  is whatever the buffer currently holds. -/

/-- Result of the inner `for i := len(buf)-1; i >= 0; i--` scan: either the
selection point was found (`finalData = append(buf[i+1:], finalData...)` is
about to be written) carrying `buf[i+1:]`, or the window was exhausted with
an updated newline count. -/
inductive ScanRes where
  | found (tail : List Nat)
  | noStop (lines : Nat)
deriving DecidableEq

/-- The backward scan of one window.  The Go loop walks `buf[i]` from the
highest index down; here the reversed buffer is walked structurally while
`i` tracks the original index and `acc` maintains `buf[i+1:]`.  A newline
(byte 10) at file position `size - 1` is skipped (`offset+int64(i) ==
size-1`); any other newline bumps the count, and once `lines >= n` the
selection point is reached. -/
def scanWin (offset size n : Nat) : List Nat → Nat → Nat → List Nat → ScanRes
  | [], _, lines, _ => .noStop lines
  | x :: rest, i, lines, acc =>
    if x = 10 then
      if offset + i = size - 1 then scanWin offset size n rest (i - 1) lines (x :: acc)
      else if n ≤ lines + 1 then .found acc
      else scanWin offset size n rest (i - 1) (lines + 1) (x :: acc)
    else scanWin offset size n rest (i - 1) lines (x :: acc)

/-- The window loop of `replayTail`.  Each iteration reads `W` bytes at
`offset` into the buffer (`ReadFull` always fills the full buffer length),
scans backwards, and either returns the selected tail or prepends the
window to `finalData` and moves `offset` down by `W`, clamping at 0 (Go
clamps a negative offset to 0 and only shrinks the unused `bufSize`
variable).  `content`/`aliased` model `finalData` and its aliasing of the
buffer.  The fuel argument makes the `for offset >= 0` loop structural: the
top-level call passes `file.length`, and since `W ≥ 1` and `offset`
strictly decreases, at most `file.length` iterations can occur, so the
fuel-exhausted branch is unreachable. -/
def rtAux (file : List Nat) (size n W : Nat) :
    Nat → Nat → Nat → List Nat → Bool → List Nat
  | 0, _, _, content, _ => content
  | fuel + 1, offset, lines, content, aliased =>
    let buf := (file.drop offset).take W
    let c := if aliased then buf else content
    match scanWin offset size n buf.reverse (buf.length - 1) lines [] with
    | .found tail => tail ++ c
    | .noStop lines1 =>
      let c1 := if c.isEmpty then buf else buf ++ c
      if offset = 0 then c1
      else rtAux file size n W fuel (offset - W) lines1 c1 c.isEmpty

/-- `replayTail`: nothing for an empty file; otherwise run the backward
window loop from `offset = size - bufSize` with `bufSize = min 4096 size`,
and return the bytes written to the output writer. -/
def replayTail (file : List Nat) (n : Nat) : List Nat :=
  if file.length = 0 then []
  else
    let W := min 4096 file.length
    rtAux file file.length n W file.length (file.length - W) 0 [] false

/-- The model reproduces the single-window cases of `TestReplayTail`
(ExactLines, FewerLinesThanAvailable, NoTrailingNewline, SingleLine). -/
theorem replayTail_small_cases :
    replayTail [49, 10, 50, 10, 51, 10] 3 = [49, 10, 50, 10, 51, 10] ∧
    replayTail [49, 10, 50, 10, 51, 10, 52, 10, 53, 10] 2 = [52, 10, 53, 10] ∧
    replayTail [49, 10, 50, 10, 51] 2 = [50, 10, 51] ∧
    replayTail [104, 101, 108, 108, 111] 1 = [104, 101, 108, 108, 111] := by
  refine ⟨by decide, by decide, by decide, by decide⟩

/-- A file of 4097 bytes: 4096 copies of the letter a, then one final
newline — a single newline-terminated line (L = 1). -/
def tailFile : List Nat := List.replicate 4096 97 ++ [10]

theorem scanWin_no_ten (offset size n : Nat) :
    ∀ (k i lines : Nat) (acc : List Nat),
      scanWin offset size n (List.replicate k 97) i lines acc = .noStop lines := by
  intro k
  induction k with
  | zero => intro i lines acc; rfl
  | succ k ih =>
    intro i lines acc
    rw [List.replicate, scanWin, if_neg (by norm_num)]
    exact ih (i - 1) lines (97 :: acc)

theorem rtAux_succ (file : List Nat) (size n W fuel offset lines : Nat)
    (content : List Nat) (aliased : Bool) :
    rtAux file size n W (fuel + 1) offset lines content aliased =
      (let buf := (file.drop offset).take W
       let c := if aliased then buf else content
       match scanWin offset size n buf.reverse (buf.length - 1) lines [] with
       | .found tail => tail ++ c
       | .noStop lines1 =>
         let c1 := if c.isEmpty then buf else buf ++ c
         if offset = 0 then c1
         else rtAux file size n W fuel (offset - W) lines1 c1 c.isEmpty) := rfl

theorem tailFile_window_one : (tailFile.drop 1).take 4096 =
    List.replicate 4095 97 ++ [10] := by
  unfold tailFile
  rw [List.drop_append_of_le_length (by rw [List.length_replicate]; norm_num),
    List.drop_replicate, show (4096 - 1 : Nat) = 4095 from rfl,
    List.take_of_length_le
      (le_of_eq (by rw [List.length_append, List.length_replicate]; rfl))]

theorem tailFile_window_two : (tailFile.drop 0).take 4096 =
    List.replicate 4096 97 := by
  unfold tailFile
  rw [List.drop_zero, List.take_left' (by rw [List.length_replicate])]

theorem tailFile_scan_one :
    scanWin 1 4097 1 (List.replicate 4095 97 ++ [10]).reverse
      ((List.replicate 4095 97 ++ [10]).length - 1) 0 [] = .noStop 0 := by
  rw [List.reverse_append, List.reverse_replicate, List.length_append,
    List.length_replicate]
  simp only [List.reverse_cons, List.reverse_nil, List.nil_append, List.cons_append,
    List.length_cons, List.length_nil]
  rw [scanWin, if_pos rfl, if_pos (by norm_num)]
  exact scanWin_no_ten 1 4097 1 4095 _ 0 _

theorem tailFile_scan_two :
    scanWin 0 4097 1 (List.replicate 4096 97).reverse
      ((List.replicate 4096 97).length - 1) 0 [] = .noStop 0 := by
  rw [List.reverse_replicate]
  exact scanWin_no_ten 0 4097 1 4096 _ 0 _

/-- Claim C5 is the documented intent, and the code breaks it on any file
larger than one 4096-byte window: on `tailFile` (one newline-terminated
line, so any `N ≥ 1` must replay the whole 4097-byte file) `replayTail`
outputs 8192 copies of the letter a — the 4096-byte window at offset 0
twice — because the final partial window re-reads overlapping bytes
through the never-shrunk buffer and the first window is lost to the
`finalData`/`buf` aliasing. -/
theorem c5_tail_code_bug :
    replayTail tailFile 1 = List.replicate 8192 97 ∧
    replayTail tailFile 1 ≠ tailFile := by
  have hlen : tailFile.length = 4097 := by
    unfold tailFile
    rw [List.length_append, List.length_replicate]
    rfl
  have heval : replayTail tailFile 1 = List.replicate 8192 97 := by
    have h1 : replayTail tailFile 1 = rtAux tailFile 4097 1 4096 4097 1 0 [] false := by
      unfold replayTail
      rw [hlen, if_neg (by norm_num)]
      norm_num
    rw [h1]
    nth_rewrite 2 [show (4097 : Nat) = 4096 + 1 from by norm_num]
    rw [rtAux_succ]
    simp only [tailFile_window_one, tailFile_scan_one, Bool.false_eq_true, if_false,
      List.isEmpty_nil, if_true]
    rw [if_neg (by norm_num)]
    norm_num
    nth_rewrite 2 [show (4096 : Nat) = 4095 + 1 from by norm_num]
    rw [rtAux_succ]
    simp only [tailFile_window_two, tailFile_scan_two, if_true]
    rw [if_neg (by rw [show (List.replicate 4096 97).isEmpty = false from rfl]; exact
      Bool.false_ne_true)]
    rw [show (8192 : Nat) = 4096 + 4096 from by norm_num, List.replicate_add]
  refine ⟨heval, ?_⟩
  intro heq
  have := congrArg List.length heq
  rw [heval, List.length_replicate, hlen] at this
  omega
